import Mathlib

/-!
# Verification of the nextjs-radar route engine

Shallow embedding of the route-discovery and URL-matching core of the
`nextjs-radar` repository (`src/constants/patterns.ts`, `src/constants/types.ts`,
the app-router scanning/hierarchy/matching module, and the `RouteItem` model).
Strings are modelled as `List Char` (`Str`); every definition is a direct
translation of the corresponding TypeScript function.
-/

/-- Strings are modelled as lists of characters. -/
abbrev Str := List Char

/-- `RouteFileType` enum from `src/constants/types.ts`. -/
inductive RouteFileType where
  | page | layout | loading | error | notFound | route | template | default | globalError
deriving DecidableEq, Repr

/-- The string value of each `RouteFileType` enum member
(`Page = 'page'`, …, `NotFound = 'not-found'`, `GlobalError = 'global-error'`). -/
def fileTypeStr : RouteFileType → Str
  | .page => "page".data
  | .layout => "layout".data
  | .loading => "loading".data
  | .error => "error".data
  | .notFound => "not-found".data
  | .route => "route".data
  | .template => "template".data
  | .default => "default".data
  | .globalError => "global-error".data

/-- `RoutingPattern` enum from `src/constants/types.ts`. -/
inductive RoutingPattern where
  | static | dynamic | catchAll | optionalCatchAll | parallel | intercepting | routeGroup
deriving DecidableEq, Repr

/-! ## Segment pattern predicates

These are the regexes of `ROUTE_PATTERNS` / `SEGMENT_PATTERNS` in
`src/constants/patterns.ts` (the two tables use syntactically identical
regexes for each pattern kind).  Each regex is anchored (`^…$`), so `test`
holds exactly when the whole string decomposes as the pattern describes;
the structural matchers below implement that decomposition. -/

/-- Tail check shared by the bracket regexes: holds iff the list is
`inner ++ [close]` with `inner` nonempty and no character of `inner` equal to
`'.'` or `']'` (the character class `[^.\]]+` followed by the closing
bracket and end of input). -/
def bracketTailEnd : Str → Bool
  | [] => false
  | [c] => c == ']'
  | c :: rest => c ≠ '.' && c ≠ ']' && bracketTailEnd rest

/-- `inner ++ [']']` with `inner` nonempty, `inner` free of `'.'` and `']'`. -/
def bracketTail : Str → Bool
  | c :: rest => c ≠ '.' && c ≠ ']' && bracketTailEnd rest
  | [] => false

/-- `DYNAMIC_SEGMENT`: `/^\[([^.\]]+)\]$/` — `[name]`, `name` nonempty with no
`'.'` or `']'`.  (Backtracking cannot help the regex: the group may not
contain `']'`, so the closing bracket it consumes must be the final one.) -/
def isDynamicSegment : Str → Bool
  | '[' :: rest => bracketTail rest
  | _ => false

/-- `CATCH_ALL_SEGMENT`: `/^\[\.\.\.([^.\]]+)\]$/` — `[...name]`. -/
def isCatchAllSegment : Str → Bool
  | '[' :: '.' :: '.' :: '.' :: rest => bracketTail rest
  | _ => false

/-- Tail check for the optional catch-all: `inner ++ [']', ']']` with `inner`
nonempty and free of `'.'` and `']'`. -/
def bracket2TailEnd : Str → Bool
  | [] => false
  | [_] => false
  | [c, d] => c == ']' && d == ']'
  | c :: rest => c ≠ '.' && c ≠ ']' && bracket2TailEnd rest

/-- `OPTIONAL_CATCH_ALL_SEGMENT`: `/^\[\[\.\.\.([^.\]]+)\]\]$/` — `[[...name]]`. -/
def isOptionalCatchAllSegment : Str → Bool
  | '[' :: '[' :: '.' :: '.' :: '.' :: c :: rest =>
      c ≠ '.' && c ≠ ']' && bracket2TailEnd rest
  | _ => false

/-- Tail check for route groups: `inner ++ [')']` with `inner` nonempty and
free of `')'` (the class `[^)]+`). -/
def groupTailEnd : Str → Bool
  | [] => false
  | [c] => c == ')'
  | c :: rest => c ≠ ')' && groupTailEnd rest

/-- `ROUTE_GROUP`: `/^\(([^)]+)\)$/` — `(name)`, `name` nonempty without `')'`. -/
def isRouteGroup : Str → Bool
  | '(' :: c :: rest => c ≠ ')' && groupTailEnd rest
  | _ => false

/-- `PARALLEL_ROUTE`: `/^@([^/]+)$/` — `@name`, `name` nonempty without `'/'`. -/
def isParallelRoute : Str → Bool
  | '@' :: c :: rest => (c :: rest).all (fun x => x ≠ '/')
  | _ => false

/-- A character matched by the JavaScript regex `.` (no `s` flag):
anything but a line terminator. -/
def jsDot (c : Char) : Bool :=
  c ≠ '\n' && c ≠ '\r' && c ≠ '\u2028' && c ≠ '\u2029'

/-- Search for a split `l = x ++ ')' :: y` with `x` possibly empty, all of
`x` and `y` matched by `.`. -/
def interceptSplit : Str → Bool
  | [] => false
  | c :: rest => (c = ')' && rest.all jsDot) || (jsDot c && interceptSplit rest)

/-- `INTERCEPTING_ROUTE`: `/^(\(.+\))(.*)$/` — an opening `'('`, at least one
`.`-character, a `')'`, and an arbitrary `.*` tail.  With backtracking the
regex accepts exactly when some such split exists. -/
def isInterceptingRoute : Str → Bool
  | '(' :: c :: rest => jsDot c && interceptSplit rest
  | _ => false

/-- `getRoutingPattern` from `src/constants/patterns.ts`: the fixed
most-specific-first cascade, with `Static` as the fallback. -/
def getRoutingPattern (segment : Str) : RoutingPattern :=
  if isOptionalCatchAllSegment segment then .optionalCatchAll
  else if isCatchAllSegment segment then .catchAll
  else if isDynamicSegment segment then .dynamic
  else if isRouteGroup segment then .routeGroup
  else if isParallelRoute segment then .parallel
  else if isInterceptingRoute segment then .intercepting
  else .static

/-! ## Route path building (`buildRoutePath` in the app-router module) -/

/-- The per-segment transform inside `buildRoutePath`'s `.map`: brackets
become `:inner` or `*rest` (`[id] -> :id`, `[...slug] -> *slug`), a leading
`'@'` is stripped, anything else is kept. -/
def mapRouteSegment (segment : Str) : Str :=
  if segment.head? == some '[' && segment.getLast? == some ']' then
    let inner := (segment.drop 1).dropLast
    if inner.take 3 = "...".data then '*' :: inner.drop 3
    else ':' :: inner
  else if segment.head? = some '@' then segment.drop 1
  else segment

/-- `Array.prototype.join('/')`. -/
def joinSlash : List Str → Str
  | [] => []
  | [s] => s
  | s :: t :: rest => s ++ '/' :: joinSlash (t :: rest)

/-- `buildRoutePath`: `'/'` for the empty list, otherwise route groups are
filtered out, each segment is transformed, and the results are joined with
`'/'` after a single leading `'/'`. -/
def buildRoutePath (segments : List Str) : Str :=
  if segments = [] then "/".data
  else '/' :: joinSlash ((segments.filter (fun s => !isRouteGroup s)).map mapRouteSegment)

/-! ## Route model (`RouteItem` in `src/models`, `AppRouterFile` in the scanner) -/

/-- `AppRouterFile`: one discovered file, as emitted by the directory scanner. -/
structure AppRouterFile where
  filePath : Str
  relativePath : Str
  fileName : Str
  fileType : RouteFileType
  segments : List Str
  routePath : Str
deriving DecidableEq, Repr

/-- `determineOverallPattern`: the first non-static pattern among the
segments, else `Static`. -/
def determineOverallPattern : List Str → RoutingPattern
  | [] => .static
  | s :: rest =>
      if getRoutingPattern s ≠ .static then getRoutingPattern s
      else determineOverallPattern rest

/-- `generateRouteId`: `` `${segments.join('/') || 'root'}-${fileType}` ``
(the `'root'` placeholder is used when `segments` is empty). -/
def generateRouteId (segments : List Str) (fileType : RouteFileType) : Str :=
  (if segments.length > 0 then joinSlash segments else "root".data)
    ++ '-' :: fileTypeStr fileType

/-- `formatSegmentForDisplay` from the app-router module. -/
def formatSegmentForDisplay (segment : Str) : Str :=
  if segment.head? == some '[' && segment.getLast? == some ']' then
    let inner := (segment.drop 1).dropLast
    if inner.take 3 = "...".data then '[' :: '.' :: '.' :: '.' :: (inner.drop 3 ++ [']'])
    else '[' :: (inner ++ [']'])
  else if segment.head? == some '(' && segment.getLast? == some ')' then
    '(' :: ((segment.drop 1).dropLast ++ [')'])
  else if segment.head? == some '@' then '@' :: segment.drop 1
  else segment

/-- `generateRouteLabel` from the app-router module. -/
def generateRouteLabel (segments : List Str) (fileType : RouteFileType) : Str :=
  match segments.getLast? with
  | none => if fileType = .page then "/".data else '/' :: fileTypeStr fileType
  | some lastSegment =>
      if fileType ≠ .page then lastSegment ++ '/' :: fileTypeStr fileType
      else formatSegmentForDisplay lastSegment

/-- The immutable payload of a `RouteItem` (everything the constructor stores
except the mutable `children` array, which the hierarchy builder owns). -/
structure NodeData where
  id : Str
  label : Str
  path : Str
  filePath : Str
  fileType : RouteFileType
  pattern : RoutingPattern
  segments : List Str
  parentId : Option Str
deriving DecidableEq, Repr

/-- `createRouteItem`: builds the node payload from a discovered file. -/
def createRouteItem (file : AppRouterFile) (routeId : Str) (parentId : Option Str) :
    NodeData where
  id := routeId
  label := generateRouteLabel file.segments file.fileType
  path := file.routePath
  filePath := file.filePath
  fileType := file.fileType
  pattern := determineOverallPattern file.segments
  segments := file.segments
  parentId := parentId

/-- `RouteItem.canHaveChildren`: Layout or Template role, or a route-group
overall pattern. -/
def canHaveChildren (nd : NodeData) : Bool :=
  nd.fileType == .layout || nd.fileType == .template || nd.pattern == .routeGroup

/-- `RouteItem.isPage`: set by the constructor to `fileType === Page`. -/
def nodeIsPage (nd : NodeData) : Bool :=
  nd.fileType == .page

/-- A materialized `RouteItem`: payload plus the `children` array. -/
inductive RouteItem where
  | mk (data : NodeData) (children : List RouteItem)

/-- The payload of a materialized node. -/
def RouteItem.data : RouteItem → NodeData
  | .mk d _ => d

/-- The children of a materialized node. -/
def RouteItem.children : RouteItem → List RouteItem
  | .mk _ c => c

/-! ## Hierarchy assembly (`buildRouteHierarchy`)

JavaScript builds the forest by mutating shared `RouteItem` objects held in
`routeMap` (`Map.set` overwrites, `addChild` appends to the parent's array).
The embedding gives every created object its creation index as identity:
`nodes` is the heap in creation order, `routeMap` maps route ids to the most
recently stored index (association list, newest entry first — exactly
`Map.set`/`Map.get` behaviour), `childEdges` records every `addChild` call as
a (parent index, child index) pair in call order, and `rootIdx` records every
`rootRoutes.push`.  The observable forest is materialized at the end. -/

/-- `findParentRouteId`: same-directory Layout first, then the Layout one
level up (only when that prefix is non-empty); the file-type argument is
unused by the source as well. -/
def findParentRouteId (segments : List Str) (fileType : RouteFileType)
    (routeMap : List (Str × Nat)) : Option Str :=
  let _ := fileType
  if segments.length = 0 then none
  else
    let layoutId := generateRouteId segments .layout
    if (routeMap.lookup layoutId).isSome then some layoutId
    else
      let parentSegments := segments.dropLast
      if parentSegments.length > 0 then
        let parentLayoutId := generateRouteId parentSegments .layout
        if (routeMap.lookup parentLayoutId).isSome then some parentLayoutId
        else none
      else none

/-- The mutable state of `buildRouteHierarchy`'s loop. -/
structure HState where
  routeMap : List (Str × Nat)
  nodes : List NodeData
  childEdges : List (Nat × Nat)
  rootIdx : List Nat
deriving Repr

/-- The empty initial state (`routeMap = new Map()`, `rootRoutes = []`). -/
def initHState : HState := ⟨[], [], [], []⟩

/-- One iteration of `buildRouteHierarchy`'s `for` loop: create the node,
store it in the map (overwriting), then attach it to the parent looked up
*after* the store — or push it as a root. -/
def buildStep (st : HState) (file : AppRouterFile) : HState :=
  let i := st.nodes.length
  let routeId := generateRouteId file.segments file.fileType
  let parentId := findParentRouteId file.segments file.fileType st.routeMap
  let routeItem := createRouteItem file routeId parentId
  let routeMap' := (routeId, i) :: st.routeMap
  let nodes' := st.nodes ++ [routeItem]
  match parentId with
  | some pid =>
      match (routeMap'.lookup pid).bind (fun p => (nodes'[p]?).map (fun nd => (p, nd))) with
      | some (p, parentNode) =>
          if canHaveChildren parentNode then
            { routeMap := routeMap', nodes := nodes',
              childEdges := st.childEdges ++ [(p, i)], rootIdx := st.rootIdx }
          else
            { routeMap := routeMap', nodes := nodes',
              childEdges := st.childEdges, rootIdx := st.rootIdx ++ [i] }
      | none =>
          { routeMap := routeMap', nodes := nodes',
            childEdges := st.childEdges, rootIdx := st.rootIdx ++ [i] }
  | none =>
      { routeMap := routeMap', nodes := nodes',
        childEdges := st.childEdges, rootIdx := st.rootIdx ++ [i] }

/-- Stable insertion of a file into a depth-sorted list (equal depths keep
their original relative order, as the ES2019 `Array.prototype.sort` with the
comparator `a.segments.length - b.segments.length` guarantees). -/
def insertByDepth (f : AppRouterFile) : List AppRouterFile → List AppRouterFile
  | [] => [f]
  | g :: rest =>
      if g.segments.length < f.segments.length then g :: insertByDepth f rest
      else f :: g :: rest

/-- The stable depth-ascending sort applied by `buildRouteHierarchy`. -/
def sortFilesByDepth : List AppRouterFile → List AppRouterFile
  | [] => []
  | f :: rest => insertByDepth f (sortFilesByDepth rest)

/-- The loop of `buildRouteHierarchy`, run over the depth-sorted files. -/
def buildHierarchyState (files : List AppRouterFile) : HState :=
  (sortFilesByDepth files).foldl buildStep initHState

/-- The children of node `p`, in `addChild` order. -/
def childrenOf (edges : List (Nat × Nat)) (p : Nat) : List Nat :=
  (edges.filter (fun e => e.1 == p)).map (fun e => e.2)

/-- Placeholder payload (never reached from a hierarchy state: parent chains
follow strictly increasing indices, so the fuel `nodes.length` suffices). -/
def dummyNode : NodeData :=
  { id := [], label := [], path := [], filePath := [], fileType := .page,
    pattern := .static, segments := [], parentId := none }

/-- Materialize the object graph rooted at index `i` into a `RouteItem`. -/
def materialize (nodes : List NodeData) (edges : List (Nat × Nat)) :
    Nat → Nat → RouteItem
  | 0, i => .mk (nodes.getD i dummyNode) []
  | fuel + 1, i =>
      .mk (nodes.getD i dummyNode)
        ((childrenOf edges i).map (materialize nodes edges fuel))

/-- `buildRouteHierarchy`: run the loop and read back `rootRoutes` with the
children accumulated through mutation. -/
def buildRouteHierarchy (files : List AppRouterFile) : List RouteItem :=
  let st := buildHierarchyState files
  st.rootIdx.map (materialize st.nodes st.childEdges st.nodes.length)

/-! ## URL matching (`matchUrlToRoute`)

`cleanUrl` calls the host's WHATWG `URL` constructor when the input contains
`"://"`; a failing construction **throws** out of `matchUrlToRoute` (there is
no `try`/`catch` on this path).  The embedding takes the constructor as a
parameter `urlParse : Str → Option Str` returning the `pathname` on success
and `none` where `new URL` throws; that `none` propagates, so
`matchUrlToRoute … = none` models the escaped exception and
`matchUrlToRoute … = some r` models a normal return of `r`. -/

/-- `String.prototype.includes`: some position of the list starts with the
pattern. -/
def containsSub (pat : Str) : Str → Bool
  | [] => pat.isEmpty
  | c :: rest => pat.isPrefixOf (c :: rest) || containsSub pat rest

/-- `path.replace(/\/+/g, '/')`: collapse every run of slashes to one. -/
def collapseSlashes : Str → Str
  | [] => []
  | [c] => [c]
  | a :: b :: rest =>
      if a = '/' && b = '/' then collapseSlashes (b :: rest)
      else a :: collapseSlashes (b :: rest)

/-- `cleanUrl`: strip the origin via the URL constructor when `"://"` occurs
(`none` = the constructor threw), drop query and fragment, collapse repeated
slashes, and drop a trailing slash unless the path is the root. -/
def cleanUrl (urlParse : Str → Option Str) (url : Str) : Option Str :=
  (if containsSub "://".data url then urlParse url else some url).map fun p =>
    let p1 := (p.takeWhile (fun c => c ≠ '?')).takeWhile (fun c => c ≠ '#')
    let p2 := collapseSlashes p1
    if p2 ≠ "/".data ∧ p2.getLast? = some '/' then p2.dropLast else p2

/-- `String.prototype.split('/')`: cut at every slash, keeping empty pieces
(so a leading slash yields a leading empty segment). -/
def splitSlash : Str → List Str
  | [] => [[]]
  | c :: rest =>
      match splitSlash rest with
      | [] => [[]]
      | h :: t => if c = '/' then [] :: h :: t else (c :: h) :: t

/-- The `urlSegments` computed at the top of `matchUrlToRoute`:
`cleanPath === '/' ? [] : cleanPath.split('/')`. -/
def urlSegmentsOfUrl (urlParse : Str → Option Str) (url : Str) :
    Option (List Str) :=
  (cleanUrl urlParse url).map fun cleanPath =>
    if cleanPath = "/".data then [] else splitSlash cleanPath

/-- `matchSegments`: positional matching of the URL segments against the
route's segments (the two index variables of the `while` loop become list
suffixes). -/
def matchSegments (urlSegments : List Str) : List Str → Bool
  | [] => urlSegments.isEmpty
  | routeSegment :: routeRest =>
      if isOptionalCatchAllSegment routeSegment then true
      else if isCatchAllSegment routeSegment then !urlSegments.isEmpty
      else if isDynamicSegment routeSegment then
        match urlSegments with
        | [] => false
        | _ :: urlRest => matchSegments urlRest routeRest
      else if routeSegment.head? == some '@' then
        matchSegments urlSegments routeRest
      else
        match urlSegments with
        | [] => false
        | x :: urlRest => x == routeSegment && matchSegments urlRest routeRest

/-- `isRouteMatch`: only Page nodes match; route groups are filtered from the
node's segments; the empty segment list matches only the root URL. -/
def isRouteMatch (urlSegments : List Str) (nd : NodeData) : Bool :=
  if !nodeIsPage nd then false
  else
    let routeSegments := nd.segments.filter (fun s => !isRouteGroup s)
    if routeSegments.isEmpty then urlSegments.isEmpty
    else matchSegments urlSegments routeSegments

mutual

/-- `findMatchingRoute`: pre-order search over the forest — for each route in
order, the loop body (`findInRouteItem`) checks the route itself and then its
children, before the loop falls through to the remaining routes. -/
def findMatchingRoute (urlSegments : List Str) : List RouteItem → Option RouteItem
  | [] => none
  | r :: rest =>
      match findInRouteItem urlSegments r with
      | some m => some m
      | none => findMatchingRoute urlSegments rest
  termination_by structural routes => routes

/-- The body of `findMatchingRoute`'s loop for one route: return the route if
it matches, otherwise search its children recursively. -/
def findInRouteItem (urlSegments : List Str) : RouteItem → Option RouteItem
  | .mk d cs =>
      if isRouteMatch urlSegments d then some (.mk d cs)
      else findMatchingRoute urlSegments cs
  termination_by structural r => r

end

/-- `matchUrlToRoute`: clean the URL, split it, search the forest.  The outer
`Option` layer is the exception channel of the URL constructor. -/
def matchUrlToRoute (urlParse : Str → Option Str) (url : Str)
    (routes : List RouteItem) : Option (Option RouteItem) :=
  (urlSegmentsOfUrl urlParse url).map fun urlSegments =>
    findMatchingRoute urlSegments routes

/-- Stub for the WHATWG `URL` constructor capturing the single fact this
development needs about it: a string with no ASCII-alphabetic scheme
character before the separator (such as `"://"`) is not a parsable absolute
URL, so the constructor throws (`none`).  The success branch is never
exercised by any theorem below. -/
def urlParseStub (url : Str) : Option Str :=
  match url with
  | c :: _ => if c.isAlpha then some url else none
  | [] => none

/-! ## Concrete discovered files used by the claim instances -/

/-- `app/blog/[slug]/page.tsx` as the scanner reports it. -/
def blogSlugPageFile : AppRouterFile where
  filePath := "app/blog/[slug]/page.tsx".data
  relativePath := "blog/[slug]/page.tsx".data
  fileName := "page.tsx".data
  fileType := .page
  segments := ["blog".data, "[slug]".data]
  routePath := buildRoutePath ["blog".data, "[slug]".data]

/-- `app/docs/[...slug]/page.tsx`. -/
def docsCatchAllPageFile : AppRouterFile where
  filePath := "app/docs/[...slug]/page.tsx".data
  relativePath := "docs/[...slug]/page.tsx".data
  fileName := "page.tsx".data
  fileType := .page
  segments := ["docs".data, "[...slug]".data]
  routePath := buildRoutePath ["docs".data, "[...slug]".data]

/-- `app/docs/[[...slug]]/page.tsx`. -/
def docsOptCatchAllPageFile : AppRouterFile where
  filePath := "app/docs/[[...slug]]/page.tsx".data
  relativePath := "docs/[[...slug]]/page.tsx".data
  fileName := "page.tsx".data
  fileType := .page
  segments := ["docs".data, "[[...slug]]".data]
  routePath := buildRoutePath ["docs".data, "[[...slug]]".data]

/-- `app/a/layout.tsx`. -/
def aLayoutFile : AppRouterFile where
  filePath := "app/a/layout.tsx".data
  relativePath := "a/layout.tsx".data
  fileName := "layout.tsx".data
  fileType := .layout
  segments := ["a".data]
  routePath := buildRoutePath ["a".data]

/-- `app/a/layout.jsx` — a second Layout file in the same directory. -/
def aLayoutJsxFile : AppRouterFile where
  filePath := "app/a/layout.jsx".data
  relativePath := "a/layout.jsx".data
  fileName := "layout.jsx".data
  fileType := .layout
  segments := ["a".data]
  routePath := buildRoutePath ["a".data]

/-- `app/layout.tsx` — the root layout. -/
def rootLayoutFile : AppRouterFile where
  filePath := "app/layout.tsx".data
  relativePath := "layout.tsx".data
  fileName := "layout.tsx".data
  fileType := .layout
  segments := []
  routePath := buildRoutePath []

/-- `app/a/b/page.tsx`. -/
def abPageFile : AppRouterFile where
  filePath := "app/a/b/page.tsx".data
  relativePath := "a/b/page.tsx".data
  fileName := "page.tsx".data
  fileType := .page
  segments := ["a".data, "b".data]
  routePath := buildRoutePath ["a".data, "b".data]

/-- The id (if any) of the node returned by a `matchUrlToRoute` call:
`none` = the URL constructor threw, `some none` = returned `null`,
`some (some id)` = returned the node with that id. -/
def matchedId (urlParse : Str → Option Str) (url : Str)
    (routes : List RouteItem) : Option (Option Str) :=
  (matchUrlToRoute urlParse url routes).map (fun r => r.map (fun n => n.data.id))

/-- The amended parent rule, written from the amended claim's words: the
Layout registered at the same segment path wins; otherwise the Layout at the
*immediate* parent path, and only when that path is non-empty; otherwise the
node is a root.  Prefixes more than one level up — including the empty
prefix, i.e. a root layout — are never consulted. -/
def parentRuleOneLevel (segments : List Str) (routeMap : List (Str × Nat)) :
    Option Str :=
  if segments = [] then none
  else if (routeMap.lookup (generateRouteId segments .layout)).isSome then
    some (generateRouteId segments .layout)
  else if segments.dropLast ≠ [] ∧
      (routeMap.lookup (generateRouteId segments.dropLast .layout)).isSome then
    some (generateRouteId segments.dropLast .layout)
  else none

/-! ## Reachability in the built hierarchy (claim C9) -/

/-- A node index is reachable from the returned forest: it was pushed to
`rootRoutes`, or it was attached by `addChild` to a reachable parent. -/
inductive ReachIdx (roots : List Nat) (edges : List (Nat × Nat)) : Nat → Prop where
  | root {i : Nat} : i ∈ roots → ReachIdx roots edges i
  | child {p i : Nat} : ReachIdx roots edges p → (p, i) ∈ edges → ReachIdx roots edges i

/-- Two Layout-role files at the same joined location (the configuration the
amended C9 excludes: two layout files in one directory). -/
def layoutIdClash (f g : AppRouterFile) : Prop :=
  f.fileType = .layout ∧ g.fileType = .layout ∧
    generateRouteId f.segments f.fileType = generateRouteId g.segments g.fileType

/-- The loop invariant of `buildRouteHierarchy`: after processing the prefix
`pf`, the heap `nodes` mirrors `pf` (ids and roles in order), every map entry
points to a node carrying its key, every recorded index is in range, each
created node was pushed exactly once (to `rootRoutes` or to one parent's
children), and every created node is reachable from the forest. -/
structure HInv (pf : List AppRouterFile) (st : HState) : Prop where
  hlen : st.nodes.length = pf.length
  hcorr : st.nodes.map (fun nd => (nd.id, nd.fileType))
    = pf.map (fun g => (generateRouteId g.segments g.fileType, g.fileType))
  hmap : ∀ p ∈ st.routeMap, ∃ nd, st.nodes[p.2]? = some nd ∧ nd.id = p.1
  hbound : ∀ x ∈ st.rootIdx ++ st.childEdges.map Prod.snd, x < st.nodes.length
  hcount : ∀ i, i < st.nodes.length →
    (st.rootIdx ++ st.childEdges.map Prod.snd).count i = 1
  hreach : ∀ i, i < st.nodes.length → ReachIdx st.rootIdx st.childEdges i

mutual

/-- Total number of node occurrences in a forest. -/
def countNodesList : List RouteItem → Nat
  | [] => 0
  | r :: rest => countNodesItem r + countNodesList rest
  termination_by structural l => l

/-- Number of node occurrences in one tree. -/
def countNodesItem : RouteItem → Nat
  | .mk _ cs => 1 + countNodesList cs
  termination_by structural r => r

end

/-! ## Claim theorems -/

/-- C7: `buildRoutePath` satisfies the spec's table: `[] ↦ "/"`,
`["blog","[slug]"] ↦ "/blog/:slug"`, `["docs","[...slug]"] ↦ "/docs/*slug"`,
and `["(marketing)","products"] ↦ "/products"` (the route group contributes
nothing to the URL). -/
theorem C7_build_route_path_table :
    buildRoutePath [] = "/".data ∧
    buildRoutePath ["blog".data, "[slug]".data] = "/blog/:slug".data ∧
    buildRoutePath ["docs".data, "[...slug]".data] = "/docs/*slug".data ∧
    buildRoutePath ["(marketing)".data, "products".data] = "/products".data := by
  refine ⟨by decide, by decide, by decide, by decide⟩

/-- C10: `getRoutingPattern` is total with `Static` as a pure fallback: any
segment on which all six special matchers fail is classified `Static`; in
particular the empty string and `"[a.b]"` (a dotted name inside single
brackets, matched by none of the six patterns) are `Static`. -/
theorem C10_static_fallback :
    (∀ s : Str,
      isOptionalCatchAllSegment s = false →
      isCatchAllSegment s = false →
      isDynamicSegment s = false →
      isRouteGroup s = false →
      isParallelRoute s = false →
      isInterceptingRoute s = false →
      getRoutingPattern s = .static) ∧
    getRoutingPattern [] = .static ∧
    getRoutingPattern "[a.b]".data = .static := by
  refine ⟨fun s h1 h2 h3 h4 h5 h6 => ?_, by decide, by decide⟩
  simp [getRoutingPattern, h1, h2, h3, h4, h5, h6]

/-- Witness for C10 at the concrete segment `"[a.b]"`. -/
theorem C10_static_fallback_witness :
    isOptionalCatchAllSegment "[a.b]".data = false ∧
    isCatchAllSegment "[a.b]".data = false ∧
    isDynamicSegment "[a.b]".data = false ∧
    isRouteGroup "[a.b]".data = false ∧
    isParallelRoute "[a.b]".data = false ∧
    isInterceptingRoute "[a.b]".data = false ∧
    getRoutingPattern "[a.b]".data = .static :=
  ⟨by decide, by decide, by decide, by decide, by decide, by decide,
    C10_static_fallback.1 "[a.b]".data (by decide) (by decide) (by decide)
      (by decide) (by decide) (by decide)⟩

/-- C1 (code bug): the comment above `cleanUrl` promises that leading slashes
are removed, and the spec requires splitting into non-empty segments, but
`cleanPath.split('/')` keeps the empty segment produced by the leading `'/'`.
Consequently `matchUrlToRoute("/blog/my-post", …)` computes the segments
`["", "blog", "my-post"]`, the static comparison `"" !== "blog"` fails, and
`null` is returned instead of the `blog/[slug]/page.*` node — while the same
input without the leading slash does match that node. -/
theorem C1_match_url_leading_slash_eval :
    urlSegmentsOfUrl urlParseStub "/blog/my-post".data
      = some [[], "blog".data, "my-post".data] ∧
    matchedId urlParseStub "/blog/my-post".data (buildRouteHierarchy [blogSlugPageFile])
      = some none ∧
    matchedId urlParseStub "blog/my-post".data (buildRouteHierarchy [blogSlugPageFile])
      = some (some "blog/[slug]-page".data) :=
  ⟨by decide, by decide, by decide⟩

/-- C2 (code bug): at the `matchSegments` level the claim's semantics hold —
a plain catch-all needs at least one remaining input segment and then
succeeds, an optional catch-all succeeds with zero remaining — but the
end-to-end matcher fails on `"/docs/a/b/c"` because the leading slash
contributes an empty first segment (the same defect as C1), so the
catch-all page is not found; stripped of the leading slash it is found. -/
theorem C2_catchall_matching_eval :
    matchedId urlParseStub "/docs/a/b/c".data (buildRouteHierarchy [docsCatchAllPageFile])
      = some none ∧
    matchedId urlParseStub "docs/a/b/c".data (buildRouteHierarchy [docsCatchAllPageFile])
      = some (some "docs/[...slug]-page".data) ∧
    matchSegments ["docs".data, "a".data, "b".data, "c".data]
      ["docs".data, "[...slug]".data] = true ∧
    matchSegments ["docs".data] ["docs".data, "[...slug]".data] = false ∧
    matchSegments ["docs".data] ["docs".data, "[[...slug]]".data] = true ∧
    matchedId urlParseStub "docs".data (buildRouteHierarchy [docsOptCatchAllPageFile])
      = some (some "docs/[[...slug]]-page".data) :=
  ⟨by decide, by decide, by decide, by decide, by decide, by decide⟩

/-- C6 counterexample: an input containing `"://"` that the URL constructor
rejects (here the bare separator `"://"`, which has no scheme) makes
`matchUrlToRoute` propagate the exception (`none` in the exception-channel
encoding) instead of treating the input as a bare path — refuting the claim
that the matcher never throws on any string input. -/
theorem C6_url_parse_failure_throws :
    matchUrlToRoute urlParseStub "://".data [] = none := rfl

/-- C6 amended: inputs without the substring `"://"` never reach the URL
constructor and are treated as bare paths, so on them `matchUrlToRoute`
always returns normally; only inputs containing `"://"` are handed to the
constructor, whose parse failure propagates as an exception. -/
theorem C6_no_throw_for_plain_paths_amended (urlParse : Str → Option Str)
    (url : Str) (routes : List RouteItem)
    (h : containsSub "://".data url = false) :
    (matchUrlToRoute urlParse url routes).isSome = true := by
  simp [matchUrlToRoute, urlSegmentsOfUrl, cleanUrl, h]

/-- Witness for the amended C6 at the concrete input `"/blog/my-post"`. -/
theorem C6_no_throw_for_plain_paths_witness :
    containsSub "://".data "/blog/my-post".data = false ∧
    (matchUrlToRoute urlParseStub "/blog/my-post".data []).isSome = true :=
  ⟨by decide,
    C6_no_throw_for_plain_paths_amended urlParseStub "/blog/my-post".data [] (by decide)⟩

/-- C3 counterexample: `buildRoutePath` renders the optional catch-all
`[[...slug]]` as `:[...slug]`, not as the catch-all form `*slug` — the
double-bracketed segment falls into the generic single-bracket branch, whose
inner text `[...slug]` does not start with `...`. -/
theorem C3_optional_catchall_render_counterexample :
    buildRoutePath ["docs".data, "[[...slug]]".data] = "/docs/:[...slug]".data ∧
    buildRoutePath ["docs".data, "[[...slug]]".data] ≠ "/docs/*slug".data ∧
    buildRoutePath ["docs".data, "[...slug]".data] = "/docs/*slug".data :=
  ⟨by decide, by decide, by decide⟩

/-- C3 amended: `buildRoutePath` maps an optional-catch-all segment
`[[...name]]` to `:[...name]` (the outer bracket pair is stripped and the
remainder, which starts with `'['`, takes the dynamic `:` rendering) — not to
the catch-all rendering `*name`; the rendered strings of the two kinds differ
for every name, so they are distinguished by the path string itself. -/
theorem C3_optional_catchall_render_amended (name : Str) :
    mapRouteSegment ('[' :: '[' :: '.' :: '.' :: '.' :: (name ++ [']', ']']))
      = ':' :: '[' :: '.' :: '.' :: '.' :: (name ++ [']']) ∧
    mapRouteSegment ('[' :: '.' :: '.' :: '.' :: (name ++ [']'])) = '*' :: name ∧
    mapRouteSegment ('[' :: '[' :: '.' :: '.' :: '.' :: (name ++ [']', ']']))
      ≠ mapRouteSegment ('[' :: '.' :: '.' :: '.' :: (name ++ [']'])) ∧
    buildRoutePath ['[' :: '[' :: '.' :: '.' :: '.' :: (name ++ [']', ']'])]
      = '/' :: ':' :: '[' :: '.' :: '.' :: '.' :: (name ++ [']']) := by
  have h1 : mapRouteSegment ('[' :: '[' :: '.' :: '.' :: '.' :: (name ++ [']', ']']))
      = ':' :: '[' :: '.' :: '.' :: '.' :: (name ++ [']']) := by
    have hlast1 : ('[' :: '[' :: '.' :: '.' :: '.' :: (name ++ [']', ']'])).getLast?
        = some ']' := by
      rw [show '[' :: '[' :: '.' :: '.' :: '.' :: (name ++ [']', ']'])
            = ('[' :: '[' :: '.' :: '.' :: '.' :: (name ++ [']'])) ++ [']'] by simp,
        List.getLast?_concat]
    have hdrop1 : ('[' :: '.' :: '.' :: '.' :: (name ++ [']', ']'])).dropLast
        = '[' :: '.' :: '.' :: '.' :: (name ++ [']']) := by
      rw [show '[' :: '.' :: '.' :: '.' :: (name ++ [']', ']'])
            = ('[' :: '.' :: '.' :: '.' :: (name ++ [']'])) ++ [']'] by simp,
        List.dropLast_concat]
    rw [mapRouteSegment, hlast1]
    simp only [List.head?_cons, List.drop_succ_cons, List.drop_zero, hdrop1]
    norm_num
    intro h
    exact absurd h (by decide)
  have h2 : mapRouteSegment ('[' :: '.' :: '.' :: '.' :: (name ++ [']'])) = '*' :: name := by
    have hlast2 : ('[' :: '.' :: '.' :: '.' :: (name ++ [']'])).getLast? = some ']' := by
      rw [show '[' :: '.' :: '.' :: '.' :: (name ++ [']'])
            = ('[' :: '.' :: '.' :: '.' :: name) ++ [']'] by simp, List.getLast?_concat]
    have hdrop2 : ('.' :: '.' :: '.' :: (name ++ [']'])).dropLast
        = '.' :: '.' :: '.' :: name := by
      rw [show '.' :: '.' :: '.' :: (name ++ [']'])
            = ('.' :: '.' :: '.' :: name) ++ [']'] by simp, List.dropLast_concat]
    rw [mapRouteSegment, hlast2]
    simp only [List.head?_cons, List.drop_succ_cons, List.drop_zero, hdrop2]
    norm_num
  refine ⟨h1, h2, ?_, ?_⟩
  · rw [h1, h2]
    intro h
    exact absurd (List.head_eq_of_cons_eq h) (by decide)
  · have hgrp : isRouteGroup ('[' :: '[' :: '.' :: '.' :: '.' :: (name ++ [']', ']']))
        = false := rfl
    simp [buildRoutePath, joinSlash, hgrp, h1]

/-- The inner-name character class `[^.\]]+` of the bracket regexes holds
across an appended closing bracket. -/
theorem bracketTailEnd_concat (inner : Str) (h : ∀ c ∈ inner, c ≠ '.' ∧ c ≠ ']') :
    bracketTailEnd (inner ++ [']']) = true := by
  induction inner with
  | nil => rfl
  | cons c t ih =>
      have hc := h c (List.mem_cons_self c t)
      have ht := ih (fun x hx => h x (List.mem_cons_of_mem c hx))
      cases t with
      | nil => simp [bracketTailEnd, hc.1, hc.2]
      | cons d t' =>
          simp only [List.cons_append] at ht ⊢
          simp [bracketTailEnd, hc.1, hc.2, ht]

/-- A nonempty clean name followed by `']'` passes `bracketTail`. -/
theorem bracketTail_concat (inner : Str) (hne : inner ≠ [])
    (h : ∀ c ∈ inner, c ≠ '.' ∧ c ≠ ']') : bracketTail (inner ++ [']']) = true := by
  cases inner with
  | nil => exact absurd rfl hne
  | cons c t =>
      have hc := h c (List.mem_cons_self c t)
      rw [List.cons_append, bracketTail]
      simp [hc.1, hc.2, bracketTailEnd_concat t (fun x hx => h x (List.mem_cons_of_mem c hx))]

/-- A clean name followed by `"]]"` passes `bracket2TailEnd`. -/
theorem bracket2TailEnd_concat (inner : Str) (h : ∀ c ∈ inner, c ≠ '.' ∧ c ≠ ']') :
    bracket2TailEnd (inner ++ [']', ']']) = true := by
  induction inner with
  | nil => rfl
  | cons c t ih =>
      have hc := h c (List.mem_cons_self c t)
      have ht := ih (fun x hx => h x (List.mem_cons_of_mem c hx))
      cases t with
      | nil => simp [bracket2TailEnd, hc.1, hc.2]
      | cons d t' =>
          cases t' with
          | nil => simp_all [bracket2TailEnd]
          | cons e t'' =>
              simp only [List.cons_append] at ht ⊢
              simp [bracket2TailEnd, hc.1, hc.2, ht]

/-- C8 counterexample: the claim quantifies over every name string, but for
the dotted name `a.b` the segment `[...a.b]` matches no special pattern
(the catch-all regex forbids `'.'` inside the name), so `getRoutingPattern`
classifies it `Static`, not `CatchAll`. -/
theorem C8_classify_overlap_counterexample :
    getRoutingPattern "[...a.b]".data ≠ .catchAll ∧
    getRoutingPattern "[...a.b]".data = .static :=
  ⟨by decide, by decide⟩

/-- C8 amended: for every nonempty name free of `'.'` and `']'`, the cascade
classifies `[...name]` as `CatchAll` and `[[...name]]` as
`OptionalCatchAll`; and for *every* name string whatsoever, `[...name]` is
never classified `Dynamic` and `[[...name]]` is never classified `CatchAll`
(the most-specific-first cascade resolves the overlapping bracket
syntaxes). -/
theorem C8_classify_overlap_amended :
    (∀ name : Str, name ≠ [] → (∀ c ∈ name, c ≠ '.' ∧ c ≠ ']') →
      getRoutingPattern ('[' :: '.' :: '.' :: '.' :: (name ++ [']'])) = .catchAll ∧
      getRoutingPattern ('[' :: '[' :: '.' :: '.' :: '.' :: (name ++ [']', ']']))
        = .optionalCatchAll) ∧
    (∀ name : Str,
      getRoutingPattern ('[' :: '.' :: '.' :: '.' :: (name ++ [']'])) ≠ .dynamic ∧
      getRoutingPattern ('[' :: '[' :: '.' :: '.' :: '.' :: (name ++ [']', ']']))
        ≠ .catchAll) := by
  constructor
  · intro name hne h
    constructor
    · have hopt : isOptionalCatchAllSegment ('[' :: '.' :: '.' :: '.' :: (name ++ [']']))
          = false := rfl
      have hca : isCatchAllSegment ('[' :: '.' :: '.' :: '.' :: (name ++ [']'])) = true := by
        show bracketTail (name ++ [']']) = true
        exact bracketTail_concat name hne h
      simp [getRoutingPattern, hopt, hca]
    · cases name with
      | nil => exact absurd rfl hne
      | cons c t =>
          have hc := h c (List.mem_cons_self c t)
          rw [List.cons_append]
          have hopt : isOptionalCatchAllSegment
              ('[' :: '[' :: '.' :: '.' :: '.' :: c :: (t ++ [']', ']'])) = true := by
            simp only [isOptionalCatchAllSegment]
            simp [hc.1, hc.2,
              bracket2TailEnd_concat t (fun x hx => h x (List.mem_cons_of_mem c hx))]
          simp [getRoutingPattern, hopt]
  · intro name
    constructor
    · have hopt : isOptionalCatchAllSegment ('[' :: '.' :: '.' :: '.' :: (name ++ [']']))
          = false := rfl
      have hdyn : isDynamicSegment ('[' :: '.' :: '.' :: '.' :: (name ++ [']'])) = false := rfl
      cases hca : isCatchAllSegment ('[' :: '.' :: '.' :: '.' :: (name ++ [']'])) with
      | true => simp [getRoutingPattern, hopt, hca]
      | false =>
          have hgrp : isRouteGroup ('[' :: '.' :: '.' :: '.' :: (name ++ [']'])) = false := rfl
          have hpar : isParallelRoute ('[' :: '.' :: '.' :: '.' :: (name ++ [']'])) = false := rfl
          have hint : isInterceptingRoute ('[' :: '.' :: '.' :: '.' :: (name ++ [']']))
              = false := rfl
          simp [getRoutingPattern, hopt, hca, hdyn, hgrp, hpar, hint]
    · have hca : isCatchAllSegment ('[' :: '[' :: '.' :: '.' :: '.' :: (name ++ [']', ']']))
          = false := rfl
      cases hopt : isOptionalCatchAllSegment
          ('[' :: '[' :: '.' :: '.' :: '.' :: (name ++ [']', ']'])) with
      | true => simp [getRoutingPattern, hopt]
      | false =>
          have hdyn : isDynamicSegment ('[' :: '[' :: '.' :: '.' :: '.' :: (name ++ [']', ']']))
              = false := rfl
          have hgrp : isRouteGroup ('[' :: '[' :: '.' :: '.' :: '.' :: (name ++ [']', ']']))
              = false := rfl
          have hpar : isParallelRoute ('[' :: '[' :: '.' :: '.' :: '.' :: (name ++ [']', ']']))
              = false := rfl
          have hint : isInterceptingRoute
              ('[' :: '[' :: '.' :: '.' :: '.' :: (name ++ [']', ']'])) = false := rfl
          simp [getRoutingPattern, hopt, hca, hdyn, hgrp, hpar, hint]

/-- Witness for the amended C8 at the concrete name `slug`. -/
theorem C8_classify_overlap_witness :
    ("slug".data ≠ ([] : Str)) ∧ (∀ c ∈ "slug".data, c ≠ '.' ∧ c ≠ ']') ∧
    getRoutingPattern ('[' :: '.' :: '.' :: '.' :: ("slug".data ++ [']'])) = .catchAll ∧
    getRoutingPattern ('[' :: '[' :: '.' :: '.' :: '.' :: ("slug".data ++ [']', ']']))
      = .optionalCatchAll ∧
    getRoutingPattern ('[' :: '.' :: '.' :: '.' :: ("slug".data ++ [']'])) ≠ .dynamic ∧
    getRoutingPattern ('[' :: '[' :: '.' :: '.' :: '.' :: ("slug".data ++ [']', ']']))
      ≠ .catchAll :=
  ⟨by decide, by decide,
    (C8_classify_overlap_amended.1 "slug".data (by decide) (by decide)).1,
    (C8_classify_overlap_amended.1 "slug".data (by decide) (by decide)).2,
    (C8_classify_overlap_amended.2 "slug".data).1,
    (C8_classify_overlap_amended.2 "slug".data).2⟩

/-- C4 counterexample: with a Layout registered two levels up (at `["a"]`),
`findParentRouteId` for a Page at `["a","b","c"]` returns `none` — the code
checks only the same directory and one level up, so the claim that every
shorter prefix (down to the empty one) is consulted is false. -/
theorem C4_parent_walkup_counterexample :
    (([("a-layout".data, 0)] : List (Str × Nat)).lookup
        (generateRouteId ["a".data] .layout)).isSome = true ∧
    findParentRouteId ["a".data, "b".data, "c".data] .page
      [("a-layout".data, 0)] = none :=
  ⟨by decide, by decide⟩

/-- C4 amended: parent determination checks exactly two candidate locations —
the node's own segment path and the immediate parent path (the latter only
when non-empty) — and returns the first registered Layout id among them;
otherwise the node becomes a root.  `findParentRouteId` coincides with this
rule for every input (and ignores its file-type argument). -/
theorem C4_parent_one_level_amended (segments : List Str)
    (fileType : RouteFileType) (routeMap : List (Str × Nat)) :
    findParentRouteId segments fileType routeMap
      = parentRuleOneLevel segments routeMap := by
  have hdl : segments.dropLast = [] ↔ segments.length ≤ 1 := by
    rw [← List.length_eq_zero, List.length_dropLast]
    omega
  unfold findParentRouteId parentRuleOneLevel
  split_ifs <;>
    simp_all [List.length_eq_zero, List.length_pos, Ne, not_or]

/-- Splitting at the first separator: two decompositions around a `'/'` that
neither left part contains must coincide. -/
theorem slashSplit (a : Str) : ∀ (b x y : Str), '/' ∉ a → '/' ∉ b →
    a ++ '/' :: x = b ++ '/' :: y → a = b ∧ x = y := by
  induction a with
  | nil =>
      intro b x y _ hb h
      cases b with
      | nil => simpa using h
      | cons bc bt =>
          simp only [List.nil_append, List.cons_append, List.cons.injEq] at h
          exact absurd (h.1 ▸ List.mem_cons_self '/' bt) (h.1 ▸ hb)
  | cons ac at' ih =>
      intro b x y ha hb h
      cases b with
      | nil =>
          simp only [List.nil_append, List.cons_append, List.cons.injEq] at h
          exact absurd (h.1 ▸ List.mem_cons_self '/' at') (fun hm => ha (h.1 ▸ hm))
      | cons bc bt =>
          simp only [List.cons_append, List.cons.injEq] at h
          have := ih bt x y (fun hm => ha (List.mem_cons_of_mem ac hm))
            (fun hm => hb (List.mem_cons_of_mem bc hm)) h.2
          exact ⟨by rw [h.1, this.1], this.2⟩

/-- `Array.join('/')` is injective on lists of nonempty, slash-free
segments. -/
theorem joinSlash_inj (l1 : List Str) : ∀ (l2 : List Str),
    (∀ s ∈ l1, s ≠ [] ∧ '/' ∉ s) → (∀ s ∈ l2, s ≠ [] ∧ '/' ∉ s) →
    joinSlash l1 = joinSlash l2 → l1 = l2 := by
  induction l1 with
  | nil =>
      intro l2 _ h2 h
      cases l2 with
      | nil => rfl
      | cons b r =>
          cases r with
          | nil =>
              exact absurd h.symm (by simpa [joinSlash] using (h2 b (List.mem_cons_self b [])).1)
          | cons c r' =>
              rw [joinSlash] at h
              simp [joinSlash] at h
  | cons a l1' ih =>
      intro l2 h1 h2 h
      have ha := h1 a (List.mem_cons_self a l1')
      cases l2 with
      | nil =>
          cases l1' with
          | nil => exact absurd h (by simpa [joinSlash] using ha.1)
          | cons c r' =>
              rw [joinSlash] at h
              simp [joinSlash] at h
      | cons b l2' =>
          have hb := h2 b (List.mem_cons_self b l2')
          cases l1' with
          | nil =>
              cases l2' with
              | nil => simpa [joinSlash] using h
              | cons d r2 =>
                  rw [joinSlash, joinSlash] at h
                  exact absurd (h ▸ List.mem_append_right b (List.mem_cons_self '/' _)) ha.2
          | cons c r1 =>
              cases l2' with
              | nil =>
                  rw [joinSlash, joinSlash] at h
                  exact absurd (h.symm ▸ List.mem_append_right a (List.mem_cons_self '/' _)) hb.2
              | cons d r2 =>
                  rw [joinSlash, joinSlash] at h
                  have hs := slashSplit a b (joinSlash (c :: r1)) (joinSlash (d :: r2))
                    ha.2 hb.2 h
                  have := ih (d :: r2) (fun s hs' => h1 s (List.mem_cons_of_mem a hs'))
                    (fun s hs' => h2 s (List.mem_cons_of_mem b hs')) hs.2
                  rw [hs.1, this]

/-- C5 counterexample: the `'root'` placeholder collides with a directory
literally named `root`: the distinct segment lists `["root"]` and `[]`
generate the same id for the same role, refuting injectivity per
(location, role). -/
theorem C5_route_id_collision_counterexample :
    (["root".data] : List Str) ≠ [] ∧
    generateRouteId ["root".data] .page = generateRouteId [] .page :=
  ⟨by decide, by decide⟩

/-- The enum's string values are pairwise distinct. -/
theorem fileTypeStr_inj (t1 t2 : RouteFileType)
    (h : fileTypeStr t1 = fileTypeStr t2) : t1 = t2 := by
  revert h
  revert t2
  cases t1 <;> (intro t2; cases t2 <;> decide)

/-- C5 amended: the generated id is injective per (location, role) *except*
that the one-segment location `["root"]` collides with the empty (root)
location: for one role, lists of nonempty slash-free segments get distinct
ids unless one list is `[]` and the other `["root"]`; and at one location,
distinct roles always get distinct ids. -/
theorem C5_route_id_injective_amended :
    (∀ (s1 s2 : List Str) (t : RouteFileType),
      (∀ s ∈ s1, s ≠ [] ∧ '/' ∉ s) → (∀ s ∈ s2, s ≠ [] ∧ '/' ∉ s) →
      s1 ≠ s2 → ¬(s1 = [] ∧ s2 = ["root".data]) → ¬(s2 = [] ∧ s1 = ["root".data]) →
      generateRouteId s1 t ≠ generateRouteId s2 t) ∧
    (∀ (s : List Str) (t1 t2 : RouteFileType), t1 ≠ t2 →
      generateRouteId s t1 ≠ generateRouteId s t2) := by
  constructor
  · intro s1 s2 t h1 h2 hne hr1 hr2 h
    have hp : (if s1.length > 0 then joinSlash s1 else "root".data)
        = (if s2.length > 0 then joinSlash s2 else "root".data) :=
      List.append_cancel_right h
    have hroot : ∀ s ∈ (["root".data] : List Str), s ≠ [] ∧ '/' ∉ s := by decide
    cases s1 with
    | nil =>
        cases s2 with
        | nil => exact hne rfl
        | cons b r =>
            simp only [List.length_nil, List.length_cons, gt_iff_lt,
              Nat.lt_irrefl, if_false, Nat.succ_pos, if_true] at hp
            have : (b :: r : List Str) = ["root".data] := by
              refine joinSlash_inj (b :: r) ["root".data] h2 hroot ?_
              simpa [joinSlash] using hp.symm
            exact hr1 ⟨rfl, this⟩
    | cons a q =>
        cases s2 with
        | nil =>
            simp only [List.length_nil, List.length_cons, gt_iff_lt,
              Nat.lt_irrefl, if_false, Nat.succ_pos, if_true] at hp
            have : (a :: q : List Str) = ["root".data] := by
              refine joinSlash_inj (a :: q) ["root".data] h1 hroot ?_
              simpa [joinSlash] using hp
            exact hr2 ⟨rfl, this⟩
        | cons b r =>
            simp only [List.length_cons, gt_iff_lt, Nat.succ_pos, if_true] at hp
            exact hne (joinSlash_inj (a :: q) (b :: r) h1 h2 hp)
  · intro s t1 t2 hne h
    have := List.append_cancel_left h
    simp only [List.cons.injEq, true_and] at this
    exact hne (fileTypeStr_inj t1 t2 this)

/-- Witness for the amended C5: two distinct sibling directories get distinct
page ids, and page/layout in one directory get distinct ids. -/
theorem C5_route_id_injective_witness :
    ((["a".data] : List Str) ≠ ["b".data]) ∧ (RouteFileType.page ≠ .layout) ∧
    generateRouteId ["a".data] .page ≠ generateRouteId ["b".data] .page ∧
    generateRouteId ["a".data] .page ≠ generateRouteId ["a".data] .layout :=
  ⟨by decide, by decide,
    C5_route_id_injective_amended.1 ["a".data] ["b".data] .page (by decide) (by decide)
      (by decide) (by decide) (by decide),
    C5_route_id_injective_amended.2 ["a".data] .page .layout (by decide)⟩

/-- Reachability is preserved when roots and edges grow. -/
theorem ReachIdx.mono {roots roots' : List Nat} {edges edges' : List (Nat × Nat)}
    (hr : ∀ x ∈ roots, x ∈ roots') (he : ∀ e ∈ edges, e ∈ edges') {i : Nat}
    (h : ReachIdx roots edges i) : ReachIdx roots' edges' i := by
  induction h with
  | root hm => exact .root (hr _ hm)
  | child _ hm ih => exact .child ih (he _ hm)

/-- Stable insertion permutes to a cons. -/
theorem insertByDepth_perm (f : AppRouterFile) (l : List AppRouterFile) :
    (insertByDepth f l).Perm (f :: l) := by
  induction l with
  | nil => exact List.Perm.refl _
  | cons g rest ih =>
      rw [insertByDepth]
      split
      · exact List.Perm.trans (List.Perm.cons g ih) (List.Perm.swap f g rest)
      · exact List.Perm.refl _

/-- The depth sort only permutes the discovered files. -/
theorem sortFilesByDepth_perm (l : List AppRouterFile) :
    (sortFilesByDepth l).Perm l := by
  induction l with
  | nil => exact List.Perm.refl _
  | cons f rest ih =>
      exact List.Perm.trans (insertByDepth_perm f (sortFilesByDepth rest))
        (List.Perm.cons f ih)

/-- A successful association-list lookup exhibits a member. -/
theorem lookup_mem (l : List (Str × Nat)) (k : Str) (v : Nat)
    (h : l.lookup k = some v) : (k, v) ∈ l := by
  induction l with
  | nil => simp [List.lookup] at h
  | cons p rest ih =>
      cases p with
      | mk a b =>
          rw [List.lookup] at h
          by_cases hk : (k == a) = true
          · simp [hk] at h
            rw [eq_of_beq hk, ← h]
            exact List.mem_cons_self _ _
          · simp [hk] at h
            exact List.mem_cons_of_mem _ (ih h)

/-- Two append-suffix decompositions with different two-character reversed
prefixes of the suffixes cannot be equal. -/
theorem append_ne_rev2 (a b x y : Str) (hx : 2 ≤ x.length) (hy : 2 ≤ y.length)
    (hne : x.reverse.take 2 ≠ y.reverse.take 2) : a ++ x ≠ b ++ y := by
  intro h
  apply hne
  have h' := congrArg List.reverse h
  rw [List.reverse_append, List.reverse_append] at h'
  have h2 := congrArg (List.take 2) h'
  rwa [List.take_append_of_le_length (by simpa using hx),
    List.take_append_of_le_length (by simpa using hy)] at h2

/-- If an id built with the Layout suffix equals an id built with the suffix
of role `t`, then `t` is Layout (no other enum value's string shares the
last two characters `ut` with `layout`). -/
theorem routeId_layout_type (p1 p2 : Str) (t : RouteFileType)
    (h : p1 ++ '-' :: fileTypeStr .layout = p2 ++ '-' :: fileTypeStr t) :
    t = .layout := by
  cases t with
  | layout => rfl
  | page => exact absurd h (append_ne_rev2 _ _ _ _ (by decide) (by decide) (by decide))
  | loading => exact absurd h (append_ne_rev2 _ _ _ _ (by decide) (by decide) (by decide))
  | error => exact absurd h (append_ne_rev2 _ _ _ _ (by decide) (by decide) (by decide))
  | notFound => exact absurd h (append_ne_rev2 _ _ _ _ (by decide) (by decide) (by decide))
  | route => exact absurd h (append_ne_rev2 _ _ _ _ (by decide) (by decide) (by decide))
  | template => exact absurd h (append_ne_rev2 _ _ _ _ (by decide) (by decide) (by decide))
  | default => exact absurd h (append_ne_rev2 _ _ _ _ (by decide) (by decide) (by decide))
  | globalError => exact absurd h (append_ne_rev2 _ _ _ _ (by decide) (by decide) (by decide))

/-- Any id equal to a Layout-suffixed id belongs to a Layout-role file. -/
theorem generateRouteId_layout (segs s : List Str) (t : RouteFileType)
    (h : generateRouteId segs .layout = generateRouteId s t) : t = .layout := by
  unfold generateRouteId at h
  exact routeId_layout_type _ _ t h

/-- `layoutIdClash` is symmetric. -/
theorem layoutIdClash_symm {f g : AppRouterFile} (h : layoutIdClash f g) :
    layoutIdClash g f := ⟨h.2.1, h.1, h.2.2.symm⟩

/-- A successful parent lookup returns a Layout-suffixed id present in the
map. -/
theorem findParentRouteId_shape (segments : List Str) (t : RouteFileType)
    (m : List (Str × Nat)) (pid : Str)
    (h : findParentRouteId segments t m = some pid) :
    (∃ segs', pid = generateRouteId segs' .layout) ∧ (m.lookup pid).isSome := by
  unfold findParentRouteId at h
  by_cases h0 : segments.length = 0
  · simp [h0] at h
  · simp only [h0, if_false] at h
    by_cases hl1 : (List.lookup (generateRouteId segments .layout) m).isSome = true
    · simp only [hl1, if_true] at h
      cases h
      exact ⟨⟨segments, rfl⟩, hl1⟩
    · simp only [hl1, if_false] at h
      by_cases hl2 : segments.dropLast.length > 0
      · simp only [hl2, if_true] at h
        by_cases hl3 :
            (List.lookup (generateRouteId segments.dropLast .layout) m).isSome = true
        · simp only [hl3, if_true] at h
          cases h
          exact ⟨⟨segments.dropLast, rfl⟩, hl3⟩
        · simp [hl3] at h
      · exfalso
        simp at h
        rw [List.length_dropLast] at hl2
        omega

/-- `buildStep` when no parent id is found: push a root. -/
theorem buildStep_none (st : HState) (f : AppRouterFile)
    (hpid : findParentRouteId f.segments f.fileType st.routeMap = none) :
    buildStep st f =
      { routeMap := (generateRouteId f.segments f.fileType, st.nodes.length) :: st.routeMap,
        nodes := st.nodes ++
          [createRouteItem f (generateRouteId f.segments f.fileType) none],
        childEdges := st.childEdges,
        rootIdx := st.rootIdx ++ [st.nodes.length] } := by
  simp only [buildStep, hpid]

/-- `buildStep` when a parent id distinct from the new node's own id is
found: attach to the parent when it can have children, else push a root. -/
theorem buildStep_some (st : HState) (f : AppRouterFile) (pid : Str) (j : Nat)
    (nd : NodeData)
    (hpid : findParentRouteId f.segments f.fileType st.routeMap = some pid)
    (hne : (pid == generateRouteId f.segments f.fileType) = false)
    (hj : st.routeMap.lookup pid = some j)
    (hnd : st.nodes[j]? = some nd) :
    buildStep st f =
      if canHaveChildren nd then
        { routeMap := (generateRouteId f.segments f.fileType, st.nodes.length) :: st.routeMap,
          nodes := st.nodes ++
            [createRouteItem f (generateRouteId f.segments f.fileType) (some pid)],
          childEdges := st.childEdges ++ [(j, st.nodes.length)],
          rootIdx := st.rootIdx }
      else
        { routeMap := (generateRouteId f.segments f.fileType, st.nodes.length) :: st.routeMap,
          nodes := st.nodes ++
            [createRouteItem f (generateRouteId f.segments f.fileType) (some pid)],
          childEdges := st.childEdges,
          rootIdx := st.rootIdx ++ [st.nodes.length] } := by
  have hjlt : j < st.nodes.length := (List.getElem?_eq_some.mp hnd).1
  have hlookup' :
      ((generateRouteId f.segments f.fileType, st.nodes.length) :: st.routeMap).lookup pid
        = some j := by
    rw [List.lookup, hne]
    exact hj
  have hnd' : (st.nodes ++
      [createRouteItem f (generateRouteId f.segments f.fileType) (some pid)])[j]?
        = some nd := by
    rw [List.getElem?_append_left hjlt]
    exact hnd
  simp only [buildStep, hpid, hlookup', hnd', Option.some_bind, Option.map_some']

/-- Pushing the new node as a root preserves the invariant. -/
theorem HInv_push_root (pf : List AppRouterFile) (f : AppRouterFile) (st : HState)
    (hinv : HInv pf st) (pidOpt : Option Str) :
    HInv (pf ++ [f])
      { routeMap := (generateRouteId f.segments f.fileType, st.nodes.length) :: st.routeMap,
        nodes := st.nodes ++
          [createRouteItem f (generateRouteId f.segments f.fileType) pidOpt],
        childEdges := st.childEdges,
        rootIdx := st.rootIdx ++ [st.nodes.length] } := by
  constructor
  · simp [hinv.hlen]
  · simp only [List.map_append, hinv.hcorr, List.map_cons, List.map_nil]
    rfl
  · intro p hp
    rcases List.mem_cons.mp hp with hp | hp
    · refine ⟨createRouteItem f (generateRouteId f.segments f.fileType) pidOpt, ?_, ?_⟩
      · rw [hp]
        simp
      · rw [hp]
        rfl
    · obtain ⟨nd, hnd, hid⟩ := hinv.hmap p hp
      have hlt : p.2 < st.nodes.length := (List.getElem?_eq_some.mp hnd).1
      exact ⟨nd, by rw [List.getElem?_append_left hlt]; exact hnd, hid⟩
  · intro x hx
    simp only [List.length_append, List.length_singleton]
    rcases List.mem_append.mp hx with hx | hx
    · rcases List.mem_append.mp hx with hx | hx
      · have := hinv.hbound x (List.mem_append_left _ hx)
        omega
      · simp at hx
        omega
    · have := hinv.hbound x (List.mem_append_right _ hx)
      omega
  · intro i hi
    simp only [List.length_append, List.length_singleton] at hi
    have harr : ((st.rootIdx ++ [st.nodes.length]) ++ st.childEdges.map Prod.snd).count i
        = (st.rootIdx ++ st.childEdges.map Prod.snd).count i
          + ([st.nodes.length] : List Nat).count i := by
      simp [List.count_append, List.count_cons, List.count_singleton']
      omega
    rcases Nat.lt_or_ge i st.nodes.length with hlt | hge
    · rw [harr, hinv.hcount i hlt]
      have : i ≠ st.nodes.length := by omega
      simp [List.count_singleton', this]
    · have hieq : i = st.nodes.length := by omega
      have hz : (st.rootIdx ++ st.childEdges.map Prod.snd).count i = 0 :=
        List.count_eq_zero.mpr (fun hm => by
          have := hinv.hbound i hm
          omega)
      rw [harr, hz, hieq]
      simp
  · intro i hi
    simp only [List.length_append, List.length_singleton] at hi
    rcases Nat.lt_or_ge i st.nodes.length with hlt | hge
    · exact (hinv.hreach i hlt).mono
        (fun x hx => List.mem_append_left _ hx) (fun e he => he)
    · have hieq : i = st.nodes.length := by omega
      exact .root (by rw [hieq]; exact List.mem_append_right _ (List.mem_singleton.mpr rfl))

/-- Attaching the new node to an existing parent preserves the invariant. -/
theorem HInv_push_child (pf : List AppRouterFile) (f : AppRouterFile) (st : HState)
    (hinv : HInv pf st) (pidOpt : Option Str) (j : Nat) (hj : j < st.nodes.length) :
    HInv (pf ++ [f])
      { routeMap := (generateRouteId f.segments f.fileType, st.nodes.length) :: st.routeMap,
        nodes := st.nodes ++
          [createRouteItem f (generateRouteId f.segments f.fileType) pidOpt],
        childEdges := st.childEdges ++ [(j, st.nodes.length)],
        rootIdx := st.rootIdx } := by
  constructor
  · simp [hinv.hlen]
  · simp only [List.map_append, hinv.hcorr, List.map_cons, List.map_nil]
    rfl
  · intro p hp
    rcases List.mem_cons.mp hp with hp | hp
    · refine ⟨createRouteItem f (generateRouteId f.segments f.fileType) pidOpt, ?_, ?_⟩
      · rw [hp]
        simp
      · rw [hp]
        rfl
    · obtain ⟨nd, hnd, hid⟩ := hinv.hmap p hp
      have hlt : p.2 < st.nodes.length := (List.getElem?_eq_some.mp hnd).1
      exact ⟨nd, by rw [List.getElem?_append_left hlt]; exact hnd, hid⟩
  · intro x hx
    simp only [List.length_append, List.length_singleton]
    rcases List.mem_append.mp hx with hx | hx
    · have := hinv.hbound x (List.mem_append_left _ hx)
      omega
    · simp only [List.map_append, List.map_cons, List.map_nil] at hx
      rcases List.mem_append.mp hx with hx | hx
      · have := hinv.hbound x (List.mem_append_right _ hx)
        omega
      · simp at hx
        omega
  · intro i hi
    simp only [List.length_append, List.length_singleton] at hi
    have harr : (st.rootIdx ++ ((st.childEdges ++ [(j, st.nodes.length)]).map Prod.snd)).count i
        = (st.rootIdx ++ st.childEdges.map Prod.snd).count i
          + ([st.nodes.length] : List Nat).count i := by
      simp [List.count_append, List.count_cons, List.count_singleton']
      omega
    rcases Nat.lt_or_ge i st.nodes.length with hlt | hge
    · rw [harr, hinv.hcount i hlt]
      have : i ≠ st.nodes.length := by omega
      simp [List.count_singleton', this]
    · have hieq : i = st.nodes.length := by omega
      have hz : (st.rootIdx ++ st.childEdges.map Prod.snd).count i = 0 :=
        List.count_eq_zero.mpr (fun hm => by
          have := hinv.hbound i hm
          omega)
      rw [harr, hz, hieq]
      simp
  · intro i hi
    simp only [List.length_append, List.length_singleton] at hi
    rcases Nat.lt_or_ge i st.nodes.length with hlt | hge
    · exact (hinv.hreach i hlt).mono
        (fun x hx => hx) (fun e he => List.mem_append_left _ he)
    · have hieq : i = st.nodes.length := by omega
      subst hieq
      have hparent : ReachIdx st.rootIdx (st.childEdges ++ [(j, st.nodes.length)]) j :=
        (hinv.hreach j hj).mono (fun x hx => hx) (fun e he => List.mem_append_left _ he)
      show ReachIdx st.rootIdx (st.childEdges ++ [(j, st.nodes.length)]) st.nodes.length
      exact ReachIdx.child hparent
        (List.mem_append_right _ (List.mem_singleton.mpr rfl))

/-- Helper: an element found by `[·]?` is a member. -/
theorem mem_of_getElem? {α : Type} (l : List α) (i : Nat) (a : α)
    (h : l[i]? = some a) : a ∈ l := by
  obtain ⟨hlt, hget⟩ := List.getElem?_eq_some.mp h
  exact hget ▸ List.getElem_mem hlt

/-- One loop iteration preserves the invariant, provided the incoming file
does not repeat the route id of an already-processed Layout file (the
configuration that makes the node its own parent). -/
theorem buildStep_inv (pf : List AppRouterFile) (f : AppRouterFile) (st : HState)
    (hinv : HInv pf st) (hcl : ∀ g ∈ pf, ¬ layoutIdClash f g) :
    HInv (pf ++ [f]) (buildStep st f) := by
  cases hpid : findParentRouteId f.segments f.fileType st.routeMap with
  | none =>
      rw [buildStep_none st f hpid]
      exact HInv_push_root pf f st hinv none
  | some pid =>
      obtain ⟨⟨segs', hpidform⟩, hsome⟩ := findParentRouteId_shape _ _ _ _ hpid
      have hne : (pid == generateRouteId f.segments f.fileType) = false := by
        by_contra hbe
        have hbe' : pid = generateRouteId f.segments f.fileType :=
          eq_of_beq (by simpa using hbe)
      -- the found parent id would be the node's own id: both the current
      -- file and the mapped file must be Layouts sharing one id,
      -- contradicting `hcl`.
        have hf : f.fileType = .layout :=
          generateRouteId_layout segs' f.segments f.fileType (hpidform ▸ hbe')
        obtain ⟨j, hj⟩ := Option.isSome_iff_exists.mp hsome
        obtain ⟨nd, hnd, hid⟩ := hinv.hmap _ (lookup_mem _ _ _ hj)
        have hc := congrArg (fun l => l[j]?) hinv.hcorr
        simp only [List.getElem?_map] at hc
        rw [hnd] at hc
        cases hg : pf[j]? with
        | none => rw [hg] at hc; simp at hc
        | some g =>
            rw [hg] at hc
            simp only [Option.map_some', Option.some.injEq, Prod.mk.injEq] at hc
            have hgid : generateRouteId g.segments g.fileType = pid := by
              rw [← hc.1, hid]
            have hgl : g.fileType = .layout := by
              have := hpidform ▸ hgid
              exact generateRouteId_layout segs' g.segments g.fileType this.symm
            have hfid : generateRouteId f.segments f.fileType
                = generateRouteId g.segments g.fileType := by
              rw [hgid, hbe']
            exact hcl g (mem_of_getElem? pf j g hg) ⟨hf, hgl, hfid⟩
      obtain ⟨j, hj⟩ := Option.isSome_iff_exists.mp hsome
      obtain ⟨nd, hnd, _⟩ := hinv.hmap _ (lookup_mem _ _ _ hj)
      have hjlt : j < st.nodes.length := (List.getElem?_eq_some.mp hnd).1
      rw [buildStep_some st f pid j nd hpid hne hj hnd]
      by_cases hcan : canHaveChildren nd
      · rw [if_pos hcan]
        exact HInv_push_child pf f st hinv (some pid) j hjlt
      · rw [if_neg hcan]
        exact HInv_push_root pf f st hinv (some pid)

/-- The whole loop preserves the invariant. -/
theorem buildFold_inv (fs : List AppRouterFile) : ∀ (pf : List AppRouterFile) (st : HState),
    List.Pairwise (fun a b => ¬ layoutIdClash a b) (pf ++ fs) →
    HInv pf st → HInv (pf ++ fs) (fs.foldl buildStep st) := by
  induction fs with
  | nil =>
      intro pf st _ h
      simpa using h
  | cons f fs' ih =>
      intro pf st hp hinv
      have hassoc : pf ++ f :: fs' = (pf ++ [f]) ++ fs' := by simp
      have hcl : ∀ g ∈ pf, ¬ layoutIdClash f g := by
        intro g hg hclash
        exact (List.pairwise_append.mp hp).2.2 g hg f (List.mem_cons_self f fs')
          (layoutIdClash_symm hclash)
      have hstep := buildStep_inv pf f st hinv hcl
      have hrec := ih (pf ++ [f]) (buildStep st f) (by rw [← hassoc]; exact hp) hstep
      rw [hassoc]
      simpa using hrec

/-- The empty state satisfies the invariant for the empty prefix. -/
theorem HInv_init : HInv [] initHState := by
  refine ⟨rfl, rfl, ?_, ?_, ?_, ?_⟩
  · intro p hp
    simp [initHState] at hp
  · intro x hx
    simp [initHState] at hx
  · intro i hi
    simp [initHState] at hi
  · intro i hi
    simp [initHState] at hi

/-- C9 counterexample: two Layout files in one directory (`a/layout.tsx` and
`a/layout.jsx`) make the second layout find its *own* freshly stored id as
its parent — `routeMap.set` runs before `routeMap.get` — so `addChild`
attaches it to itself.  The returned forest then contains one node instead
of two: the second layout (and anything later attached below it) is not
reachable from the forest, refuting the claim for every input file list. -/
theorem C9_duplicate_layout_unreachable_counterexample :
    ([aLayoutFile, aLayoutJsxFile] : List AppRouterFile).length = 2 ∧
    countNodesList (buildRouteHierarchy [aLayoutFile, aLayoutJsxFile]) = 1 ∧
    (buildHierarchyState [aLayoutFile, aLayoutJsxFile]).childEdges = [(1, 1)] :=
  ⟨by decide, by decide, by decide⟩

/-- C9 amended: provided no two Layout files share a generated route id
(i.e. no directory holds two layout files), `buildRouteHierarchy` drops
nothing: each file produces exactly one node, each node is pushed exactly
once (to the root list or to one parent's child list), and every node is
reachable from the returned forest — as a root or through a chain of
`addChild` attachments; a node whose nominal parent cannot hold children is
pushed as a root rather than lost. -/
theorem C9_hierarchy_complete_amended (files : List AppRouterFile)
    (h : List.Pairwise (fun a b => ¬ layoutIdClash a b) files) :
    (buildHierarchyState files).nodes.length = files.length ∧
    (∀ i, i < files.length →
      ((buildHierarchyState files).rootIdx
        ++ (buildHierarchyState files).childEdges.map Prod.snd).count i = 1) ∧
    (∀ i, i < files.length →
      ReachIdx (buildHierarchyState files).rootIdx
        (buildHierarchyState files).childEdges i) := by
  have hperm := sortFilesByDepth_perm files
  have hp : List.Pairwise (fun a b => ¬ layoutIdClash a b) (sortFilesByDepth files) :=
    (hperm.pairwise_iff fun hxy hc => hxy (layoutIdClash_symm hc)).mpr h
  have hinv := buildFold_inv (sortFilesByDepth files) [] initHState
    (by simpa using hp) HInv_init
  simp only [List.nil_append] at hinv
  have hlenp : (sortFilesByDepth files).length = files.length := hperm.length_eq
  unfold buildHierarchyState
  exact ⟨by rw [hinv.hlen, hlenp],
    fun i hi => hinv.hcount i (by rw [hinv.hlen, hlenp]; exact hi),
    fun i hi => hinv.hreach i (by rw [hinv.hlen, hlenp]; exact hi)⟩

/-- Witness for the amended C9 on the one-file project `blog/[slug]/page`. -/
theorem C9_hierarchy_complete_witness :
    List.Pairwise (fun a b => ¬ layoutIdClash a b) [blogSlugPageFile] ∧
    ((buildHierarchyState [blogSlugPageFile]).nodes.length
        = ([blogSlugPageFile] : List AppRouterFile).length ∧
      (∀ i, i < ([blogSlugPageFile] : List AppRouterFile).length →
        ((buildHierarchyState [blogSlugPageFile]).rootIdx
          ++ (buildHierarchyState [blogSlugPageFile]).childEdges.map Prod.snd).count i = 1) ∧
      (∀ i, i < ([blogSlugPageFile] : List AppRouterFile).length →
        ReachIdx (buildHierarchyState [blogSlugPageFile]).rootIdx
          (buildHierarchyState [blogSlugPageFile]).childEdges i)) :=
  ⟨by simp, C9_hierarchy_complete_amended [blogSlugPageFile] (by simp)⟩
